import Mathlib

/-
Verification of the ZenTao MCP server (zentao-mcp-server.js) against its
natural-language specification. The JavaScript source is shallowly embedded:
JS values become the inductive `JVal`, the process environment becomes an
explicit `String → Option String` map, network exchanges become explicit
oracle records, and each helper function of the source is translated to a
computable Lean definition keeping the source's name where possible.
-/

namespace Zentao

/-- JavaScript values as handled by the server: JSON data plus the
distinguished `undefined` value produced by missing-property access. -/
inductive JVal where
  | undef
  | null
  | str (s : String)
  | num (n : Int)
  | bool (b : Bool)
  | arr (elems : List JVal)
  | obj (fields : List (String × JVal))

/-- First binding of `key` in an object's field list (JS object keys are
unique, so first match is the JS semantics). Missing keys give `undefined`. -/
def fieldLookup (fields : List (String × JVal)) (key : String) : JVal :=
  match fields with
  | [] => .undef
  | kv :: rest => if kv.1 == key then kv.2 else fieldLookup rest key

/-- Optional-chaining property access `v?.[key]`: `undefined` unless `v` is an
object carrying the field. -/
def JVal.getField : JVal → String → JVal
  | .obj fields, key => fieldLookup fields key
  | _, _ => (.undef)

/-- JS truthiness of a value. -/
def truthy : JVal → Bool
  | .undef => false
  | .null => false
  | .str s => !(s == "")
  | .num n => !(n == 0)
  | .bool b => b
  | .arr _ => true
  | .obj _ => true

/-- JS `a || b`: the first operand if truthy, else the second. -/
def jsOr (a b : JVal) : JVal :=
  if truthy a then a else b

mutual

/-- JS `String(v)` / template-literal conversion. Arrays join their elements
with commas (null/undefined elements become empty); plain objects print as
"[object Object]". -/
def jsToString : JVal → String
  | .undef => "undefined"
  | .null => "null"
  | .str s => s
  | .num n => toString n
  | .bool b => if b then "true" else "false"
  | .arr xs => jsArrJoin xs
  | .obj _ => "[object Object]"

/-- `Array.prototype.join(",")` used by JS array-to-string conversion. -/
def jsArrJoin : List JVal → String
  | [] => ""
  | [x] =>
    match x with
    | .undef => ""
    | .null => ""
    | v => jsToString v
  | x :: y :: xs =>
    (match x with
     | .undef => ""
     | .null => ""
     | v => jsToString v) ++ "," ++ jsArrJoin (y :: xs)

end

/-- Whitespace recognized by the JS regex class \s and by String.trim
(ASCII whitespace plus no-break space; newlines never occur inside a line
because files are split on them first). -/
def jsIsSpace (c : Char) : Bool :=
  c == ' ' || c == '\t' || c == '\n' || c == '\r' ||
  c == Char.ofNat 11 || c == Char.ofNat 12 || c == Char.ofNat 160

/-- JS `String.prototype.trim`. -/
def jsTrim (s : String) : String :=
  (((s.data.dropWhile jsIsSpace).reverse.dropWhile jsIsSpace).reverse).asString

/-- JS `String.prototype.toLowerCase` (ASCII range, which is all the server
compares). -/
def jsToLower (s : String) : String :=
  (s.data.map Char.toLower).asString

/-- JS `String.prototype.startsWith`. -/
def strStartsWith (s pre : String) : Bool :=
  pre.data.isPrefixOf s.data

/-- JS `String.prototype.includes` on character lists. -/
def listContainsSub (pat : List Char) : List Char → Bool
  | [] => pat.isPrefixOf []
  | c :: rest => pat.isPrefixOf (c :: rest) || listContainsSub pat rest

/-- JS `String.prototype.includes`. -/
def strIncludes (s pat : String) : Bool :=
  listContainsSub pat.data s.data

/-- The array test `Array.isArray` with the array's elements. -/
def JVal.asArray : JVal → Option (List JVal)
  | .arr xs => some xs
  | _ => none

/-- The probe loop of `extractArray`: first candidate key whose value is an
array. -/
def firstArrayKey (payload : JVal) : List String → Option (List JVal)
  | [] => none
  | k :: rest =>
    match (payload.getField k).asArray with
    | some xs => some xs
    | none => firstArrayKey payload rest

/-- `extractArray(payload, keys)` from the source: the payload itself when it
is an array, else the first probed key whose value is an array, else the
`data` key when its value is an array, else the empty list. -/
def extractArray (payload : JVal) (keys : List String) : List JVal :=
  match payload.asArray with
  | some xs => xs
  | none =>
    match firstArrayKey payload keys with
    | some xs => xs
    | none =>
      match (payload.getField "data").asArray with
      | some xs => xs
      | none => []

/-- The claim's description of list extraction, written independently of the
source: a direct array is returned; otherwise the candidate keys followed by
the default `data` key are probed in order for an array value; otherwise the
result is empty. -/
def extractListSpec (payload : JVal) (keys : List String) : List JVal :=
  match payload.asArray with
  | some xs => xs
  | none =>
    ((keys ++ ["data"]).findSome? (fun k => (payload.getField k).asArray)).getD []

/-- `path.replace(/^\//, "")` of `buildUrl`: strips one leading slash. -/
def stripLeadingSlash (p : String) : String :=
  match p.data with
  | c :: rest => if c == '/' then rest.asString else p
  | [] => p

/-- The `cleaned` URL of `buildUrl`: a path already starting with "http" is
used verbatim, otherwise base URL + fixed API prefix + path with one leading
slash stripped. -/
def resolveTarget (baseUrl p : String) : String :=
  if strStartsWith p "http" then p
  else baseUrl ++ "/api.php/v1/" ++ stripLeadingSlash p

/-- Uppercase hexadecimal digit. -/
def hexDigitChar (n : Nat) : Char :=
  if n < 10 then Char.ofNat (48 + n) else Char.ofNat (55 + n)

/-- Bytes kept verbatim by the URLSearchParams serializer
(application/x-www-form-urlencoded): ASCII alphanumerics and * - . _ . -/
def formUnreservedByte (b : Nat) : Bool :=
  (48 ≤ b && b ≤ 57) || (65 ≤ b && b ≤ 90) || (97 ≤ b && b ≤ 122) ||
  b == 42 || b == 45 || b == 46 || b == 95

/-- Serialization of one byte: space as +, unreserved bytes verbatim, the
rest percent-encoded with uppercase hex. -/
def encodeByte (b : Nat) : String :=
  if b == 32 then "+"
  else if formUnreservedByte b then String.singleton (Char.ofNat b)
  else "%" ++ String.singleton (hexDigitChar (b / 16)) ++ String.singleton (hexDigitChar (b % 16))

/-- UTF-8 bytes of a character, as natural numbers below 256. -/
def utf8Bytes (c : Char) : List Nat :=
  let n := c.toNat
  if n < 128 then [n]
  else if n < 2048 then [192 + n / 64, 128 + n % 64]
  else if n < 65536 then [224 + n / 4096, 128 + (n / 64) % 64, 128 + n % 64]
  else [240 + n / 262144, 128 + (n / 4096) % 64, 128 + (n / 64) % 64, 128 + n % 64]

/-- URLSearchParams percent-encoding of a string: UTF-8 bytes, each
serialized by `encodeByte`. -/
def formEncode (s : String) : String :=
  String.join (((s.data.map utf8Bytes).flatten).map encodeByte)

/-- The `usp.append` loop of `buildUrl`: entries whose value is `undefined` or
`null` are skipped; every other value is stringified and appended in order. -/
def buildQueryPairs (query : List (String × JVal)) : List (String × String) :=
  query.foldl (fun acc kv =>
    match kv.2 with
    | .undef => acc
    | .null => acc
    | v => acc ++ [(kv.1, jsToString v)]) []

/-- `URLSearchParams.toString()`: ampersand-joined percent-encoded pairs. -/
def uspToString (pairs : List (String × String)) : String :=
  String.intercalate "&" (pairs.map (fun kv => formEncode kv.1 ++ "=" ++ formEncode kv.2))

/-- `buildUrl(path, query)` from the source, with the configured base URL
passed explicitly; `none` for the query models an absent query object. -/
def buildUrl (baseUrl p : String) (query : Option (List (String × JVal))) : String :=
  let cleaned := resolveTarget baseUrl p
  match query with
  | none => cleaned
  | some q =>
    if q.length == 0 then cleaned
    else cleaned ++ "?" ++ uspToString (buildQueryPairs q)

/-- The claim's notion of a path that begins with a URL scheme. -/
def startsWithScheme (p : String) : Bool :=
  strStartsWith p "http://" || strStartsWith p "https://"

/-- The double-quote character. -/
def dQuoteChar : Char := Char.ofNat 34

/-- The single-quote character. -/
def sQuoteChar : Char := Char.ofNat 39

/-- A quote character as matched by the env regex class. -/
def isQuoteChar (c : Char) : Bool :=
  c == dQuoteChar || c == sQuoteChar

/-- First character of a regex identifier [A-Za-z_]. -/
def isIdentStart (c : Char) : Bool :=
  c.isAlpha || c == '_'

/-- Later character of a regex identifier [A-Za-z0-9_]. -/
def isIdentChar (c : Char) : Bool :=
  c.isAlphanum || c == '_'

/-- The key=value part of the env regex, applied after the optional leading
whitespace and optional export prefix have been consumed: an identifier,
optional whitespace, an equals sign, optional whitespace, an optional opening
quote, then a lazily-captured value followed by an optional closing quote and
trailing whitespace. The lazy capture together with the trailing anchors
amounts to stripping trailing whitespace and then at most one quote. -/
def parseKeyValue (cs : List Char) : Option (String × String) :=
  match cs with
  | [] => none
  | c :: rest =>
    if isIdentStart c then
      let ident := (c :: rest.takeWhile isIdentChar).asString
      let afterIdent := (rest.dropWhile isIdentChar).dropWhile jsIsSpace
      match afterIdent with
      | eq :: afterEq =>
        if eq == '=' then
          let r := afterEq.dropWhile jsIsSpace
          let r1 := match r with
            | q :: r2 => if isQuoteChar q then r2 else r
            | [] => []
          let r3 := r1.reverse.dropWhile jsIsSpace
          let r4 := match r3 with
            | q :: r5 => if isQuoteChar q then r5 else r3
            | [] => []
          some (ident, r4.reverse.asString)
        else none
      | [] => none
    else none

/-- One line matched against the env regex
`^\s*(?:export\s+)?([A-Za-z_][A-Za-z0-9_]*)\s*=\s*["']?(.*?)["']?\s*$`.
The optional export group is greedy, so the variant consuming `export` plus
whitespace is tried first and the plain variant is the backtrack. -/
def parseEnvLine (line : String) : Option (String × String) :=
  let cs := line.data.dropWhile jsIsSpace
  let withExport :=
    if cs.take 6 == "export".data then
      match cs.drop 6 with
      | c :: rest =>
        if jsIsSpace c then parseKeyValue ((c :: rest).dropWhile jsIsSpace) else none
      | [] => none
    else none
  match withExport with
  | some kv => some kv
  | none => parseKeyValue cs

/-- The process environment: `none` is an unset variable. -/
def EnvMap : Type := String → Option String

/-- Point update of the environment. -/
def setEnv (env : EnvMap) (key value : String) : EnvMap :=
  fun k => if k == key then some value else env k

/-- JS falsiness of `process.env[key]`: unset or the empty string. -/
def envFalsy : Option String → Bool
  | none => true
  | some v => v == ""

/-- The per-line body of `loadEnvFallback`: a line that matches the regex sets
`process.env[key]` to the trimmed value, but only when the current value is
falsy (the captured value group always exists, so its undefined-check always
passes). -/
def applyEnvLine (env : EnvMap) (line : String) : EnvMap :=
  match parseEnvLine line with
  | none => env
  | some kv =>
    if envFalsy (env kv.1) then setEnv env kv.1 (jsTrim kv.2) else env

/-- The per-file loop of `loadEnvFallback` over the lines of one file. -/
def scanEnvFile (env : EnvMap) (lines : List String) : EnvMap :=
  lines.foldl applyEnvLine env

/-- `loadEnvFallback()`: scan the candidate files in order; a `none` file is
one that fails the existence check and is skipped. -/
def loadEnvFallback (env : EnvMap) (files : List (Option (List String))) : EnvMap :=
  files.foldl (fun e f =>
    match f with
    | none => e
    | some lines => scanEnvFile e lines) env

/-- JS object insertion semantics: an existing key keeps its position and gets
the new value, a new key is appended. -/
def objInsert (fields : List (String × String)) (key value : String) : List (String × String) :=
  if fields.any (fun kv => kv.1 == key) then
    fields.map (fun kv => if kv.1 == key then (key, value) else kv)
  else fields ++ [(key, value)]

/-- Lookup in an object's field list. -/
def lookupField (fields : List (String × String)) (key : String) : Option String :=
  match fields with
  | [] => none
  | kv :: rest => if kv.1 == key then some kv.2 else lookupField rest key

/-- The headers object of `callZenTao`'s fetch call:
`{ "Content-Type": "application/json", Token: token, ...headers }` — the two
fixed headers are written first and the caller-supplied headers are spread
after them, with JS spread overriding colliding keys. -/
def requestHeaders (token : String) (extra : List (String × String)) : List (String × String) :=
  extra.foldl (fun acc kv => objInsert acc kv.1 kv.2)
    [("Content-Type", "application/json"), ("Token", token)]

/-- The configuration snapshot read from the environment at startup. -/
structure Config where
  baseUrl : String
  account : String
  password : String

/-- `assertConfig()`: fails naming the first missing (falsy) setting. -/
def assertConfig (cfg : Config) : Except String Unit :=
  if cfg.baseUrl == "" then .error "Missing ZENTAO_BASE_URL"
  else if cfg.account == "" then .error "Missing ZENTAO_ACCOUNT"
  else if cfg.password == "" then .error "Missing ZENTAO_PASSWORD"
  else .ok ()

/-- The observable outcome of the login POST to /tokens: HTTP success flag,
status, body text, and the `safeJson` parse of the body (`JVal.null` when the
body is not valid JSON, exactly as `safeJson` returns null). -/
structure LoginExchange where
  ok : Bool
  status : Nat
  text : String
  parsed : JVal

/-- `fetchToken(forceRefresh)` as a state transition on the module-level
`cachedToken` variable (a JS value, seeded with a string from the
environment). Returns the result, the new cached state, and the number of
login exchanges performed (0 or 1). -/
def fetchToken (cfg : Config) (cachedToken : JVal) (forceRefresh : Bool)
    (login : LoginExchange) : Except String JVal × JVal × Nat :=
  if truthy cachedToken && !forceRefresh then
    (.ok cachedToken, cachedToken, 0)
  else
    match assertConfig cfg with
    | .error e => (.error e, cachedToken, 0)
    | .ok _ =>
      if !login.ok then
        (.error ("Token request failed: " ++ toString login.status ++ " " ++ login.text),
         cachedToken, 1)
      else
        let tok := login.parsed.getField "token"
        if !(truthy tok) then (.error "Token missing in response", cachedToken, 1)
        else (.ok tok, tok, 1)

/-- Two sequential authenticated calls, each obtaining its token through
`fetchToken` with no forced refresh; returns the total number of login
exchanges the pair performs. The second call starts from the cached state the
first call left behind. -/
def fetchTokenTwice (cfg : Config) (cachedToken : JVal) (l1 l2 : LoginExchange) : Nat :=
  let r1 := fetchToken cfg cachedToken false l1
  let r2 := fetchToken cfg r1.2.1 false l2
  r1.2.2 + r2.2.2

/-- `${p.name || ""}`.toLowerCase() applied to a product candidate. -/
def productNameLower (p : JVal) : String :=
  jsToLower (jsToString (jsOr (p.getField "name") (.str "")))

/-- Result record of `findProductByName`. -/
structure ResolveResult where
  product : Option JVal
  matchList : List JVal

/-- `findProductByName(name)` applied to the keyword-filtered candidate list
it fetched: the first candidate whose name matches exactly
(case-insensitively) wins; failing that, a sole candidate wins; otherwise no
product is resolved and all candidates are reported back. The JS truthiness
test on the found element is kept (`undefined` when `find` misses). -/
def findProductByName (name : String) (candidates : List JVal) : Except String ResolveResult :=
  if name == "" then .error "productName is required"
  else
    let exact := (candidates.find? (fun p => productNameLower p == jsToLower name)).getD .undef
    if truthy exact then .ok ⟨some exact, candidates⟩
    else if candidates.length == 1 then .ok ⟨candidates.head?, candidates⟩
    else .ok ⟨none, candidates⟩

/-- `Array.prototype.join(", ")`. -/
def joinComma : List String → String
  | [] => ""
  | [x] => x
  | x :: y :: rest => x ++ ", " ++ joinComma (y :: rest)

/-- The candidate list rendered by the getMyBug handler:
`matches.map(p => ` followed by `${p.id}:${p.name}` and `).join(", ")`. -/
def candidateNames (ms : List JVal) : String :=
  joinComma
    (ms.map (fun p => jsToString (p.getField "id") ++ ":" ++ jsToString (p.getField "name")))

/-- The product-resolution step of the getMyBug tool handler: resolve through
`findProductByName`; a missing (falsy) product becomes a not-found error for
zero candidates and a disambiguation error listing every candidate for any
other count. -/
def resolveProduct (name : String) (candidates : List JVal) : Except String JVal :=
  match findProductByName name candidates with
  | .error e => .error e
  | .ok r =>
    let product := r.product.getD .undef
    if !(truthy product) then
      if r.matchList.length == 0 then
        .error ("No product matched \"" ++ name ++ "\"")
      else
        .error ("Multiple products matched \"" ++ name ++ "\", please specify one of: " ++
          candidateNames r.matchList)
    else .ok product

/-- The observable parts of an HTTP response inside `callZenTao`: status code,
status text, body text, and the `safeJson` parse of the body (`JVal.null`
when parsing fails). -/
structure HttpResponse where
  status : Nat
  statusText : String
  text : String
  parsed : JVal

/-- `res.ok` of fetch: status in the 200..299 range. -/
def resOk (status : Nat) : Bool :=
  200 ≤ status && status ≤ 299

/-- The response envelope `callZenTao` returns on success. -/
structure Envelope where
  status : Nat
  headers : List (String × String)
  data : JVal

/-- The response-handling tail of `callZenTao`: a non-success status raises
`Request failed <status>: <text || statusText || "unknown">`; success returns
the envelope with the parsed body, falling back to the raw text when the body
was not valid JSON (`data ?? text`). -/
def handleResponse (res : HttpResponse) (headers : List (String × String)) :
    Except String Envelope :=
  if !(resOk res.status) then
    .error ("Request failed " ++ toString res.status ++ ": " ++
      (if res.text == "" then (if res.statusText == "" then "unknown" else res.statusText)
       else res.text))
  else
    .ok ⟨res.status, headers,
      match res.parsed with
      | .null => .str res.text
      | d => d⟩

/-- The identity-bearing candidate fields probed by `normalizeAccount`. -/
def identityFields (value : JVal) : List JVal :=
  [value.getField "account", value.getField "name", value.getField "realname",
   value.getField "realName", value.getField "username", value.getField "user",
   value.getField "id"]

/-- `normalizeAccount(value)` from the source: falsy values give nothing;
strings and numbers their stringification; objects (arrays included, as JS
`typeof` classifies them) the defined values of the identity-bearing fields;
everything is trimmed, lower-cased, and cleaned of empties and the
"[object object]" artifact. -/
def normalizeAccount (value : JVal) : List String :=
  let values : List String :=
    if !(truthy value) then []
    else
      match value with
      | .str s => [s]
      | .num n => [jsToString (.num n)]
      | .arr _ =>
        (identityFields value).foldl (fun acc v =>
          match v with
          | .undef => acc
          | .null => acc
          | v => acc ++ [jsToString v]) []
      | .obj _ =>
        (identityFields value).foldl (fun acc v =>
          match v with
          | .undef => acc
          | .null => acc
          | v => acc ++ [jsToString v]) []
      | _ => []
  (values.map (fun v => jsToLower (jsTrim v))).filter
    (fun v => v.length > 0 && !(v == "[object object]"))

/-- `${bug.status || bug.state || ""}` of the bug filter. -/
def bugStatusRaw (bug : JVal) : JVal :=
  jsOr (bug.getField "status") (jsOr (bug.getField "state") (.str ""))

/-- The per-bug predicate of `fetchBugsByProduct`: assignee match against the
configured account, keyword match on the title, and status match (bypassed by
`allStatuses`, satisfied trivially when no status filter is given). -/
def bugMatches (account : String) (keyword status : Option String)
    (allStatuses : Bool) (bug : JVal) : Bool :=
  let accountLower := jsToLower (jsTrim account)
  let statusLower : Option String :=
    match status with
    | some s => if s == "" then none else some (jsToLower (jsTrim s))
    | none => none
  let assignedCandidates :=
    normalizeAccount (bug.getField "assignedTo") ++
    normalizeAccount (bug.getField "assignedToName") ++
    normalizeAccount (bug.getField "assignedToRealname")
  let matchAssignee :=
    if accountLower == "" then true
    else assignedCandidates.any (fun v => v == accountLower)
  let matchKeyword :=
    match keyword with
    | some k =>
      if k == "" then true
      else strIncludes (jsToLower (jsToString (jsOr (bug.getField "title")
        (jsOr (bug.getField "name") (.str ""))))) (jsToLower k)
    | none => true
  let matchStatus :=
    if allStatuses then true
    else
      match statusLower with
      | some sl => jsToLower (jsTrim (jsToString (bugStatusRaw bug))) == sl
      | none => true
  matchAssignee && matchKeyword && matchStatus

/-- The local filtering step of `fetchBugsByProduct` applied to a remote bugs
payload: extract the list (wrapper key "bugs"), keep the bugs matching the
predicate. -/
def fetchBugsFiltered (account : String) (keyword status : Option String)
    (allStatuses : Bool) (payload : JVal) : List JVal :=
  (extractArray payload ["bugs"]).filter (bugMatches account keyword status allStatuses)

/-- The getBugStats tool handler on a given remote payload: filter with
`allStatuses = !activeOnly` and neither keyword nor status, then count all
bugs and the active ones. -/
def getBugStats (account : String) (activeOnly : Bool) (payload : JVal) : Nat × Nat :=
  let bugs := fetchBugsFiltered account none none (!activeOnly) payload
  (bugs.length,
   (bugs.filter (fun b => jsToLower (jsToString (bugStatusRaw b)) == "active")).length)

/-- The page size hardcoded in the getNextBug loop. -/
def pageSize : Nat := 20

/-- One outcome of the getNextBug tool: the selected bug (whose detail is then
fetched) or the not-found text. -/
inductive NextBugResult where
  | found (bug : JVal)
  | notFound (msg : String)

/-- The `while (page <= 10)` loop of getNextBug, as fuel-based recursion: the
fuel starts at 11, strictly above the page bound, so the loop condition and
never the fuel ends the recursion. `fetch page limit` yields the filtered
bugs of one remote page; the result pairs the selected bug (if any) with the
number of pages examined. -/
def getNextBugFrom (fetch : Nat → Nat → List JVal) : Nat → Nat → Option JVal × Nat
  | _, 0 => (none, 0)
  | page, fuel + 1 =>
    if page ≤ 10 then
      match (fetch page pageSize).head? with
      | some b => (some b, 1)
      | none =>
        let r := getNextBugFrom fetch (page + 1) fuel
        (r.1, r.2 + 1)
    else (none, 0)

/-- The getNextBug tool handler: loop from page 1; a bug found on some page is
returned (its detail is fetched next, which does not change which bug was
selected), otherwise the not-found message. Also returns how many pages were
examined. -/
def getNextBug (account : String) (productId : Int) (fetch : Nat → Nat → List JVal) :
    NextBugResult × Nat :=
  match getNextBugFrom fetch 1 11 with
  | (some b, n) => (.found b, n)
  | (none, n) =>
    (.notFound ("No active bugs assigned to " ++
      (if account == "" then "me" else account) ++ " found under product " ++
      toString productId), n)

/-! Helper lemmas. -/

theorem firstArrayKey_eq_findSome (payload : JVal) (keys : List String) :
    firstArrayKey payload keys = keys.findSome? (fun k => (payload.getField k).asArray) := by
  induction keys with
  | nil => rfl
  | cons k rest ih =>
    simp only [firstArrayKey]
    cases h : (payload.getField k).asArray <;> simp [List.findSome?_cons, h, ih]

theorem findSome_append_split {α β : Type} (f : α → Option β) (l₁ l₂ : List α) :
    (l₁ ++ l₂).findSome? f =
      match l₁.findSome? f with
      | some b => some b
      | none => l₂.findSome? f := by
  induction l₁ with
  | nil => simp [List.findSome?_nil]
  | cons a l ih =>
    simp only [List.cons_append]
    cases h : f a <;> simp [List.findSome?_cons, h, ih]

/-! C7: list extraction. -/

/-- C7: `extractArray` returns the payload itself when it is an array,
otherwise the first candidate key (in caller order) whose value is an array,
otherwise the value of the default `data` key when it is an array, otherwise
the empty list; in particular a payload with a `bugs` array probed with key
"bugs" yields that array, a bare array yields itself, and an unmatched shape
yields the empty list. -/
theorem c7_extract_list :
    (∀ (payload : JVal) (keys : List String),
       extractArray payload keys = extractListSpec payload keys) ∧
    (∀ a b : JVal, extractArray (.obj [("bugs", .arr [a, b])]) ["bugs"] = [a, b]) ∧
    (∀ xs : List JVal, extractArray (.arr xs) ["bugs"] = xs) ∧
    extractArray (.obj [("total", .num 0)]) ["bugs"] = [] := by
  refine ⟨?_, ?_, ?_, ?_⟩
  · intro payload keys
    unfold extractArray extractListSpec
    cases hA : payload.asArray with
    | some xs => rfl
    | none =>
      rw [firstArrayKey_eq_findSome, findSome_append_split]
      cases h1 : keys.findSome? (fun k => (payload.getField k).asArray) with
      | some xs => rfl
      | none =>
        cases h2 : (payload.getField "data").asArray <;>
          simp [List.findSome?_cons, List.findSome?_nil, h2]
  · intro a b; rfl
  · intro xs; rfl
  · rfl

/-! C3: path resolution. -/

/-- C3 counterexample: the path "httpx" does not begin with a URL scheme, yet
`buildUrl` uses it verbatim instead of resolving it against the base URL and
the fixed API prefix, so the claim's case split on "begins with a scheme" is
not what the code implements (the code tests the literal prefix "http"). -/
theorem c3_counterexample :
    startsWithScheme "httpx" = false ∧
    buildUrl "https://zentao.example" "httpx" none = "httpx" ∧
    buildUrl "https://zentao.example" "httpx" none ≠
      "https://zentao.example" ++ "/api.php/v1/" ++ "httpx" := by
  refine ⟨by decide, rfl, by decide⟩

/-- C3 amended: a path beginning with the literal prefix "http" (which covers
every http:// and https:// URL) is used verbatim as the target; any other
path resolves to base URL + "/api.php/v1/" + the path with one leading slash
stripped; consequently "/projects" and "projects" build identical URLs. -/
theorem c3_path_resolution (baseUrl p : String) (query : Option (List (String × JVal))) :
    (strStartsWith p "http" = true → resolveTarget baseUrl p = p) ∧
    (strStartsWith p "http" = false →
      resolveTarget baseUrl p = baseUrl ++ "/api.php/v1/" ++ stripLeadingSlash p) ∧
    buildUrl baseUrl "/projects" query = buildUrl baseUrl "projects" query := by
  refine ⟨fun h => by simp [resolveTarget, h], fun h => by simp [resolveTarget, h], rfl⟩

/-- Witness for the amended C3 theorem at concrete inputs. -/
theorem c3_path_resolution_witness :
    resolveTarget "https://zentao.example" "http://a/b" = "http://a/b" ∧
    resolveTarget "https://zentao.example" "/projects" =
      "https://zentao.example" ++ "/api.php/v1/" ++ stripLeadingSlash "/projects" := by
  exact ⟨(c3_path_resolution "https://zentao.example" "http://a/b" none).1 (by decide),
         (c3_path_resolution "https://zentao.example" "/projects" none).2.1 (by decide)⟩

/-! C6: query encoding. -/

theorem buildQueryPairs_eq_filterMap (q : List (String × JVal)) :
    buildQueryPairs q = q.filterMap (fun kv =>
      match kv.2 with
      | .undef => none
      | .null => none
      | v => some (kv.1, jsToString v)) := by
  suffices h : ∀ acc : List (String × String),
      q.foldl (fun acc kv =>
        match kv.2 with
        | .undef => acc
        | .null => acc
        | v => acc ++ [(kv.1, jsToString v)]) acc =
      acc ++ q.filterMap (fun kv =>
        match kv.2 with
        | .undef => none
        | .null => none
        | v => some (kv.1, jsToString v)) by
    simpa [buildQueryPairs] using h []
  induction q with
  | nil => intro acc; simp
  | cons kv rest ih =>
    intro acc
    obtain ⟨k, v⟩ := kv
    cases v <;> simp [List.filterMap_cons, ih]

/-- C6: the query string of the built URL consists exactly of the entries
whose values are neither null nor undefined, in order, each URL-encoded as
key=value; null and undefined entries are dropped; an absent or empty query
mapping appends no query string at all. -/
theorem c6_query_encoding (baseUrl p : String) (q : List (String × JVal)) :
    buildUrl baseUrl p none = resolveTarget baseUrl p ∧
    buildUrl baseUrl p (some []) = resolveTarget baseUrl p ∧
    (q.length ≠ 0 →
      buildUrl baseUrl p (some q) =
        resolveTarget baseUrl p ++ "?" ++
          String.intercalate "&" (q.filterMap (fun kv =>
            match kv.2 with
            | .undef => none
            | .null => none
            | v => some (formEncode kv.1 ++ "=" ++ formEncode (jsToString v))))) := by
  refine ⟨rfl, rfl, fun h => ?_⟩
  have hq : (q.length == 0) = false := by simpa using h
  simp only [buildUrl, hq, Bool.false_eq_true, if_false]
  rw [uspToString, buildQueryPairs_eq_filterMap, List.map_filterMap]
  have hfn : ∀ kv : String × JVal,
      Option.map (fun kv : String × String => formEncode kv.1 ++ "=" ++ formEncode kv.2)
        (match kv.2 with
         | JVal.undef => none
         | JVal.null => none
         | v => some (kv.1, jsToString v)) =
      (match kv.2 with
       | JVal.undef => none
       | JVal.null => none
       | v => some (formEncode kv.1 ++ "=" ++ formEncode (jsToString v))) := by
    intro kv
    obtain ⟨k, v⟩ := kv
    cases v <;> rfl
  simp only [hfn]

/-- Witness for the C6 theorem at a concrete query containing a null entry. -/
theorem c6_query_encoding_witness :
    buildUrl "https://zentao.example" "projects" (some [("page", .num 1), ("kw", .null)]) =
      resolveTarget "https://zentao.example" "projects" ++ "?" ++
        String.intercalate "&" ([("page", JVal.num 1), ("kw", JVal.null)].filterMap (fun kv =>
          match kv.2 with
          | .undef => none
          | .null => none
          | v => some (formEncode kv.1 ++ "=" ++ formEncode (jsToString v)))) :=
  (c6_query_encoding "https://zentao.example" "projects"
    [("page", .num 1), ("kw", .null)]).2.2 (by decide)

/-! C4: environment fallback precedence. -/

theorem applyEnvLine_preserves (env : EnvMap) (line : String) (key v : String)
    (hv : env key = some v) (hne : v ≠ "") : applyEnvLine env line key = some v := by
  unfold applyEnvLine
  cases h : parseEnvLine line with
  | none => exact hv
  | some kv =>
    by_cases hk : kv.1 = key
    · have hf : envFalsy (env kv.1) = false := by
        rw [hk, hv]
        simpa [envFalsy] using hne
      simp [hf, hv]
    · cases hfal : envFalsy (env kv.1) <;> simp [setEnv, hfal, hv]
      intro hkk
      exact absurd hkk.symm hk

theorem scanEnvFile_preserves (lines : List String) (env : EnvMap) (key v : String)
    (hv : env key = some v) (hne : v ≠ "") : scanEnvFile env lines key = some v := by
  induction lines generalizing env with
  | nil => exact hv
  | cons line rest ih =>
    exact ih (applyEnvLine env line) (applyEnvLine_preserves env line key v hv hne)

/-- C4 counterexample: a variable that pre-exists in the environment with the
empty string as its value is overwritten by the first file match, because the
source tests JS falsiness (`!process.env[key]`) rather than presence. -/
theorem c4_counterexample :
    (fun k => if k == "A" then some "" else none : EnvMap) "A" = some "" ∧
    loadEnvFallback (fun k => if k == "A" then some "" else none) [some ["A=x"]] "A" =
      some "x" :=
  ⟨rfl, rfl⟩

/-- C4 amended: the config resolver sets a scanned variable only when its
current value is missing or empty; every key whose environment value before
the scan is a nonempty string keeps that value through the whole scan, so the
precedence is pre-existing nonempty environment over first file match. -/
theorem c4_env_precedence (env : EnvMap) (files : List (Option (List String)))
    (key v : String) (hv : env key = some v) (hne : v ≠ "") :
    loadEnvFallback env files key = some v := by
  induction files generalizing env with
  | nil => exact hv
  | cons f rest ih =>
    cases f with
    | none => exact ih env hv
    | some lines => exact ih (scanEnvFile env lines) (scanEnvFile_preserves lines env key v hv hne)

/-- Witness for the amended C4 theorem: a nonempty pre-existing value
survives a scan whose file assigns the same key. -/
theorem c4_env_precedence_witness :
    loadEnvFallback (fun k => if k == "A" then some "y" else none) [some ["A=x"]] "A" =
      some "y" :=
  c4_env_precedence (fun k => if k == "A" then some "y" else none) [some ["A=x"]] "A" "y"
    rfl (by decide)

/-! C5: header merge. -/

theorem lookupField_objInsert_self (fields : List (String × String)) (key value : String) :
    lookupField (objInsert fields key value) key = some value := by
  unfold objInsert
  by_cases h : fields.any (fun kv => kv.1 == key)
  · simp only [h, if_true]
    induction fields with
    | nil => simp at h
    | cons kv rest ih =>
      by_cases hk : kv.1 = key
      · simp [lookupField, hk]
      · have hb : (kv.1 == key) = false := by simpa using hk
        have hrest : rest.any (fun kv => kv.1 == key) = true := by
          simpa [List.any_cons, hb] using h
        simpa [List.map_cons, lookupField, hb] using ih hrest
  · simp only [h, if_false]
    induction fields with
    | nil => simp [lookupField]
    | cons kv rest ih =>
      have hb : (kv.1 == key) = false := by
        have := (by simpa [List.any_cons] using h : ¬(kv.1 == key ∨ rest.any (fun kv => kv.1 == key)))
        simpa using fun hkk => this (Or.inl (by simpa using hkk))
      have hrest : ¬rest.any (fun kv => kv.1 == key) := by
        have := (by simpa [List.any_cons] using h : ¬(kv.1 == key ∨ rest.any (fun kv => kv.1 == key)))
        exact fun hr => this (Or.inr hr)
      simpa [List.cons_append, lookupField, hb] using ih hrest

theorem lookupField_map_update (fields : List (String × String)) (key value k : String)
    (h : k ≠ key) :
    lookupField (fields.map (fun kv => if kv.1 == key then (key, value) else kv)) k =
      lookupField fields k := by
  simp only [beq_iff_eq]
  induction fields with
  | nil => rfl
  | cons kv rest ih =>
    by_cases hk : kv.1 = key
    · have h1 : (key == k) = false := by simpa using Ne.symm h
      have h2 : (kv.1 == k) = false := by simpa [hk] using Ne.symm h
      simp [lookupField, hk, h1, h2, ih]
    · by_cases hkk : kv.1 = k
      · have hb : (kv.1 == k) = true := by simpa using hkk
        simp [lookupField, hk, hb, ih]
      · have hb : (kv.1 == k) = false := by simpa using hkk
        simp [lookupField, hk, hb, ih]

theorem lookupField_append_single (fields : List (String × String)) (key value k : String)
    (h : k ≠ key) :
    lookupField (fields ++ [(key, value)]) k = lookupField fields k := by
  induction fields with
  | nil =>
    have hb : (key == k) = false := by simpa using Ne.symm h
    simp [lookupField, hb]
  | cons kv rest ih =>
    cases hkk : (kv.1 == k) <;> simp [List.cons_append, lookupField, hkk, ih]

theorem lookupField_objInsert_other (fields : List (String × String)) (key value k : String)
    (h : k ≠ key) : lookupField (objInsert fields key value) k = lookupField fields k := by
  unfold objInsert
  by_cases hany : fields.any (fun kv => kv.1 == key)
  · rw [if_pos hany]
    exact lookupField_map_update fields key value k h
  · rw [if_neg hany]
    exact lookupField_append_single fields key value k h

theorem lookupField_fold_not_mem (extra : List (String × String))
    (acc : List (String × String)) (k : String) (h : ∀ kv ∈ extra, kv.1 ≠ k) :
    lookupField (extra.foldl (fun acc kv => objInsert acc kv.1 kv.2) acc) k =
      lookupField acc k := by
  induction extra generalizing acc with
  | nil => rfl
  | cons kv rest ih =>
    rw [List.foldl_cons, ih _ (fun kv hkv => h kv (List.mem_cons_of_mem _ hkv)),
      lookupField_objInsert_other _ _ _ _ (Ne.symm (h kv (List.mem_cons_self _ _)))]

theorem lookupField_fold_mem (extra : List (String × String))
    (acc : List (String × String)) (k v : String)
    (hnd : (extra.map Prod.fst).Nodup) (hmem : (k, v) ∈ extra) :
    lookupField (extra.foldl (fun acc kv => objInsert acc kv.1 kv.2) acc) k = some v := by
  induction extra generalizing acc with
  | nil => cases hmem
  | cons kv rest ih =>
    rw [List.map_cons, List.nodup_cons] at hnd
    rcases List.mem_cons.mp hmem with heq | hrest
    · subst heq
      have hnot : ∀ kv2 ∈ rest, kv2.1 ≠ k := by
        intro kv2 hkv2 hc
        have hx : kv2.1 ∈ rest.map Prod.fst := List.mem_map_of_mem Prod.fst hkv2
        rw [hc] at hx
        exact hnd.1 hx
      rw [List.foldl_cons, lookupField_fold_not_mem rest _ k hnot, lookupField_objInsert_self]
    · exact ih _ hnd.2 hrest

/-- C5: the request executor writes the JSON content-type header and the
token header first and spreads the caller-supplied headers after them with
last-write-wins, so a caller entry under the token or content-type name
overrides the fixed value, and absent a collision the fixed values stand. -/
theorem c5_header_merge (token : String) (extra : List (String × String)) :
    (∀ k v, (extra.map Prod.fst).Nodup → (k, v) ∈ extra →
       lookupField (requestHeaders token extra) k = some v) ∧
    (∀ v, (extra.map Prod.fst).Nodup → ("Token", v) ∈ extra →
       lookupField (requestHeaders token extra) "Token" = some v) ∧
    (∀ v, (extra.map Prod.fst).Nodup → ("Content-Type", v) ∈ extra →
       lookupField (requestHeaders token extra) "Content-Type" = some v) ∧
    ((∀ kv ∈ extra, kv.1 ≠ "Token") →
       lookupField (requestHeaders token extra) "Token" = some token) ∧
    ((∀ kv ∈ extra, kv.1 ≠ "Content-Type") →
       lookupField (requestHeaders token extra) "Content-Type" = some "application/json") := by
  refine ⟨?_, ?_, ?_, ?_, ?_⟩
  · intro k v hnd hmem
    exact lookupField_fold_mem extra _ k v hnd hmem
  · intro v hnd hmem
    exact lookupField_fold_mem extra _ "Token" v hnd hmem
  · intro v hnd hmem
    exact lookupField_fold_mem extra _ "Content-Type" v hnd hmem
  · intro h
    rw [requestHeaders, lookupField_fold_not_mem extra _ "Token" h]
    rfl
  · intro h
    rw [requestHeaders, lookupField_fold_not_mem extra _ "Content-Type" h]
    rfl

/-- Witness for the C5 theorem: a caller-supplied Token header overrides the
cached token, and without collisions the fixed headers stand. -/
theorem c5_header_merge_witness :
    lookupField (requestHeaders "tok" [("Token", "evil")]) "Token" = some "evil" ∧
    lookupField (requestHeaders "tok" [("X-Extra", "1")]) "Token" = some "tok" :=
  ⟨(c5_header_merge "tok" [("Token", "evil")]).2.1 "evil" (by decide) (by decide),
   (c5_header_merge "tok" [("X-Extra", "1")]).2.2.2.1 (by decide)⟩

/-! C1: token caching. -/

/-- C1: with a truthy cached token and no forced refresh, `fetchToken` returns
the cached token, performs no login exchange, and leaves the cached-token
state unchanged; consequently two sequential authenticated calls with no
forced refresh, starting before any token is cached, perform exactly one
login exchange (a successful one caches the token the second call reuses). -/
theorem c1_token_cache :
    (∀ (cfg : Config) (cached : JVal) (login : LoginExchange),
       truthy cached = true →
       fetchToken cfg cached false login = (.ok cached, cached, 0)) ∧
    (∀ (cfg : Config) (l1 l2 : LoginExchange),
       assertConfig cfg = .ok () →
       l1.ok = true →
       truthy (l1.parsed.getField "token") = true →
       fetchTokenTwice cfg (.str "") l1 l2 = 1) := by
  constructor
  · intro cfg cached login hc
    simp [fetchToken, hc]
  · intro cfg l1 l2 hcfg hok htok
    have h0 : truthy (JVal.str "") = false := rfl
    simp [fetchTokenTwice, fetchToken, h0, hcfg, hok, htok]

/-- Witness for the C1 theorem: a concrete cached hit and a concrete pair of
calls from an empty cache with one successful exchange. -/
theorem c1_token_cache_witness :
    fetchToken ⟨"https://z", "acc", "pw"⟩ (.str "t") false ⟨true, 200, "", .null⟩ =
      (.ok (.str "t"), .str "t", 0) ∧
    fetchTokenTwice ⟨"https://z", "acc", "pw"⟩ (.str "")
      ⟨true, 200, "body", .obj [("token", .str "T")]⟩
      ⟨true, 200, "body", .obj [("token", .str "T")]⟩ = 1 :=
  ⟨c1_token_cache.1 ⟨"https://z", "acc", "pw"⟩ (.str "t") ⟨true, 200, "", .null⟩ rfl,
   c1_token_cache.2 ⟨"https://z", "acc", "pw"⟩
     ⟨true, 200, "body", .obj [("token", .str "T")]⟩
     ⟨true, 200, "body", .obj [("token", .str "T")]⟩ rfl rfl rfl⟩

/-! C8: request failures. -/

/-- C8: on any non-success HTTP status the request executor fails with an
error rather than returning an envelope, and the error message carries the
status code and (when nonempty) the raw body text; in particular a 500
response with body "boom" produces an error mentioning 500 and boom. -/
theorem c8_request_error (res : HttpResponse) (hdrs : List (String × String))
    (h : resOk res.status = false) :
    ∃ e, handleResponse res hdrs = .error e ∧
      (toString res.status).data <:+: e.data ∧
      (res.text ≠ "" → res.text.data <:+: e.data) := by
  refine ⟨"Request failed " ++ toString res.status ++ ": " ++
    (if res.text == "" then (if res.statusText == "" then "unknown" else res.statusText)
     else res.text), ?_, ?_, ?_⟩
  · simp [handleResponse, h]
  · refine ⟨"Request failed ".data,
      (": " ++ (if res.text == "" then (if res.statusText == "" then "unknown" else res.statusText)
        else res.text)).data, ?_⟩
    simp [String.data_append, List.append_assoc]
  · intro ht
    have hb : (res.text == "") = false := by simpa using ht
    refine ⟨("Request failed " ++ toString res.status ++ ": ").data, [], ?_⟩
    simp [hb, String.data_append, List.append_assoc]

/-- Witness for the C8 theorem at status 500 with body "boom". -/
theorem c8_request_error_witness :
    ∃ e, handleResponse ⟨500, "", "boom", .null⟩ [] = .error e ∧
      (toString (500 : Nat)).data <:+: e.data ∧
      ("boom" ≠ "" → "boom".data <:+: e.data) :=
  c8_request_error ⟨500, "", "boom", .null⟩ [] (by decide)

/-! C2: product resolution. -/

theorem jsToLower_eq_empty {s : String} (h : jsToLower s = "") : s = "" := by
  cases s with
  | mk l =>
    have hd : l.map Char.toLower = [] := congrArg String.data h
    have hl : l = [] := List.map_eq_nil_iff.mp hd
    rw [hl]

theorem exactMatch_truthy (name : String) (p : JVal) (hname : name ≠ "")
    (hp : (productNameLower p == jsToLower name) = true) : truthy p = true := by
  cases p with
  | obj fields => rfl
  | undef => exact absurd (jsToLower_eq_empty (eq_of_beq hp).symm) hname
  | null => exact absurd (jsToLower_eq_empty (eq_of_beq hp).symm) hname
  | str s => exact absurd (jsToLower_eq_empty (eq_of_beq hp).symm) hname
  | num n => exact absurd (jsToLower_eq_empty (eq_of_beq hp).symm) hname
  | bool b => exact absurd (jsToLower_eq_empty (eq_of_beq hp).symm) hname
  | arr xs => exact absurd (jsToLower_eq_empty (eq_of_beq hp).symm) hname

theorem mem_joinComma_infix (x : String) (l : List String) (h : x ∈ l) :
    x.data <:+: (joinComma l).data := by
  induction l with
  | nil => cases h
  | cons a rest ih =>
    cases rest with
    | nil =>
      have hx : x = a := by simpa using h
      rw [hx]
      exact List.infix_refl _
    | cons b rest2 =>
      rcases List.mem_cons.mp h with heq | hmem
      · subst heq
        exact ⟨[], (", " ++ joinComma (b :: rest2)).data,
          by simp [joinComma, String.data_append, List.append_assoc]⟩
      · exact (ih hmem).trans ⟨(a ++ ", ").data, [],
          by simp [joinComma, String.data_append, List.append_assoc]⟩

/-- The two example products of the claim. -/
def fooProduct : JVal := .obj [("id", .num 1), ("name", .str "Foo")]

/-- The second example product of the claim. -/
def foobarProduct : JVal := .obj [("id", .num 2), ("name", .str "Foobar")]

/-- C2 counterexample: with candidates Foo and Foobar and query "Foo",
resolution does NOT fail — the code accepts any candidate with an exact
case-insensitive name match even when other candidates exist, so it resolves
to the product named Foo instead of raising a disambiguation error. -/
theorem c2_counterexample :
    resolveProduct "Foo" [fooProduct, foobarProduct] = .ok fooProduct ∧
    ∀ e, resolveProduct "Foo" [fooProduct, foobarProduct] ≠ .error e := by
  have h1 : resolveProduct "Foo" [fooProduct, foobarProduct] = .ok fooProduct := rfl
  refine ⟨h1, fun e he => ?_⟩
  rw [h1] at he
  exact Except.noConfusion he

/-- C2 amended: resolution succeeds whenever some candidate has an exact
case-insensitive name match (the first such candidate is chosen, regardless
of how many candidates there are), or when there is exactly one truthy
candidate overall; when no exact match exists and the candidate count is not
one, it fails with a disambiguation/not-found error whose message surfaces
every candidate's name. -/
theorem c2_product_resolution (name : String) (candidates : List JVal)
    (hname : name ≠ "") :
    (∀ p, candidates.find? (fun q => productNameLower q == jsToLower name) = some p →
       resolveProduct name candidates = .ok p) ∧
    (∀ c, candidates.find? (fun q => productNameLower q == jsToLower name) = none →
       candidates = [c] → truthy c = true → resolveProduct name candidates = .ok c) ∧
    (candidates.find? (fun q => productNameLower q == jsToLower name) = none →
     candidates.length ≠ 1 →
     ∃ e, resolveProduct name candidates = .error e ∧
       ∀ p ∈ candidates, (jsToString (p.getField "name")).data <:+: e.data) := by
  have hb : (name == "") = false := by simpa using hname
  have htu : truthy JVal.undef = false := rfl
  refine ⟨?_, ?_, ?_⟩
  · intro p hfind
    have hpred := List.find?_some hfind
    have htru : truthy p = true := exactMatch_truthy name p hname hpred
    simp [resolveProduct, findProductByName, hb, hfind, htru]
  · intro c hfind hc htc
    subst hc
    simp [resolveProduct, findProductByName, htu, hb, hfind, htc]
  · intro hfind hlen
    cases candidates with
    | nil =>
      refine ⟨"No product matched \"" ++ name ++ "\"", ?_, ?_⟩
      · simp [resolveProduct, findProductByName, htu, hb]
      · simp
    | cons a rest =>
      cases rest with
      | nil => simp at hlen
      | cons b rest2 =>
        refine ⟨"Multiple products matched \"" ++ name ++
          "\", please specify one of: " ++ candidateNames (a :: b :: rest2), ?_, ?_⟩
        · have hl1 : (((a :: b :: rest2).length) == 1) = false := by simp
          have hl0 : (((a :: b :: rest2).length) == 0) = false := by simp
          simp [resolveProduct, findProductByName, htu, hb, hfind, hl1, hl0]
        · intro p hp
          have helem : (jsToString (p.getField "id") ++ ":" ++ jsToString (p.getField "name")) ∈
              (a :: b :: rest2).map
                (fun q => jsToString (q.getField "id") ++ ":" ++ jsToString (q.getField "name")) :=
            List.mem_map_of_mem _ hp
          have h1 : (jsToString (p.getField "name")).data <:+:
              (jsToString (p.getField "id") ++ ":" ++ jsToString (p.getField "name")).data :=
            ⟨(jsToString (p.getField "id") ++ ":").data, [],
              by simp [String.data_append, List.append_assoc]⟩
          have h2 := mem_joinComma_infix _ _ helem
          have h3 : (candidateNames (a :: b :: rest2)).data <:+:
              ("Multiple products matched \"" ++ name ++
                "\", please specify one of: " ++ candidateNames (a :: b :: rest2)).data :=
            ⟨("Multiple products matched \"" ++ name ++ "\", please specify one of: ").data, [],
              by simp [String.data_append, List.append_assoc]⟩
          exact (h1.trans (h2.trans (by simpa [candidateNames] using h3)))

/-- Witness for the amended C2 theorem: the claim's own two-candidate example
resolves to the exact match, and a query matching neither candidate fails
with an error listing both names. -/
theorem c2_product_resolution_witness :
    resolveProduct "Foo" [fooProduct, foobarProduct] = .ok fooProduct ∧
    (∃ e, resolveProduct "Zed" [fooProduct, foobarProduct] = .error e ∧
      ∀ p ∈ [fooProduct, foobarProduct],
        (jsToString (p.getField "name")).data <:+: e.data) :=
  ⟨(c2_product_resolution "Foo" [fooProduct, foobarProduct] (by decide)).1 fooProduct rfl,
   (c2_product_resolution "Zed" [fooProduct, foobarProduct] (by decide)).2.2 rfl (by decide)⟩

/-! C9: bounded pagination. -/

theorem getNextBugFrom_count_le (fetch : Nat → Nat → List JVal) :
    ∀ (fuel page : Nat), (getNextBugFrom fetch page fuel).2 ≤ 11 - page := by
  intro fuel
  induction fuel with
  | zero => intro page; simp [getNextBugFrom]
  | succ f ih =>
    intro page
    by_cases h : page ≤ 10
    · cases hb : (fetch page pageSize).head? with
      | some b => simp [getNextBugFrom, h, hb]; omega
      | none =>
        have := ih (page + 1)
        simp [getNextBugFrom, h, hb]
        omega
    · simp [getNextBugFrom, h]

theorem getNextBugFrom_found (fetch : Nat → Nat → List JVal) :
    ∀ (fuel page p : Nat) (b : JVal), page ≤ p → p ≤ 10 →
      (∀ q, page ≤ q → q < p → fetch q pageSize = []) →
      (fetch p pageSize).head? = some b →
      p < page + fuel →
      getNextBugFrom fetch page fuel = (some b, p + 1 - page) := by
  intro fuel
  induction fuel with
  | zero => intro page p b h1 _ _ _ h5; omega
  | succ f ih =>
    intro page p b h1 h2 hempty hhead h5
    have hle : page ≤ 10 := le_trans h1 h2
    by_cases heq : page = p
    · subst heq
      simp [getNextBugFrom, hle, hhead]
    · have hlt : page < p := lt_of_le_of_ne h1 heq
      have he : fetch page pageSize = [] := hempty page le_rfl hlt
      have hrec := ih (page + 1) p b (by omega) h2
        (fun q hq1 hq2 => hempty q (by omega) hq2) hhead (by omega)
      simp [getNextBugFrom, hle, he, hrec]
      omega

theorem getNextBugFrom_none (fetch : Nat → Nat → List JVal) :
    ∀ (fuel page : Nat), (∀ q, page ≤ q → q ≤ 10 → fetch q pageSize = []) →
      11 ≤ page + fuel → page ≤ 11 →
      getNextBugFrom fetch page fuel = (none, 11 - page) := by
  intro fuel
  induction fuel with
  | zero => intro page _ h2 h3; simp [getNextBugFrom]; omega
  | succ f ih =>
    intro page hempty h2 h3
    by_cases h : page ≤ 10
    · have he : fetch page pageSize = [] := hempty page le_rfl h
      have hrec := ih (page + 1) (fun q hq1 hq2 => hempty q (by omega) hq2)
        (by omega) (by omega)
      simp [getNextBugFrom, h, he, hrec]
      omega
    · have : page = 11 := by omega
      simp [getNextBugFrom, h, this]

/-- C9: the get-next-bug loop always terminates: it examines at most 10 pages
(of the hardcoded page size 20); it returns the first bug of the first page
in range 1..10 whose filtered result is nonempty; and when every page in
range yields no match it returns the not-found message — in particular a
matching bug on a page beyond the bound is silently not found. -/
theorem c9_next_bug_bounded (account : String) (productId : Int)
    (fetch : Nat → Nat → List JVal) :
    (getNextBug account productId fetch).2 ≤ 10 ∧
    (∀ p b, 1 ≤ p → p ≤ 10 → (∀ q, 1 ≤ q → q < p → fetch q pageSize = []) →
       (fetch p pageSize).head? = some b →
       getNextBug account productId fetch = (.found b, p)) ∧
    ((∀ q, 1 ≤ q → q ≤ 10 → fetch q pageSize = []) →
       getNextBug account productId fetch =
         (.notFound ("No active bugs assigned to " ++
           (if account == "" then "me" else account) ++ " found under product " ++
           toString productId), 10)) := by
  refine ⟨?_, ?_, ?_⟩
  · have hle := getNextBugFrom_count_le fetch 11 1
    cases haux : getNextBugFrom fetch 1 11 with
    | mk ob n =>
      rw [haux] at hle
      cases ob <;> simpa [getNextBug, haux] using hle
  · intro p b h1 h2 hempty hhead
    have hrec := getNextBugFrom_found fetch 11 1 p b h1 h2 hempty hhead (by omega)
    have hp : p + 1 - 1 = p := by omega
    rw [hp] at hrec
    simp [getNextBug, hrec]
  · intro hempty
    have hrec := getNextBugFrom_none fetch 11 1 hempty (by omega) (by omega)
    simp [getNextBug, hrec]

/-- Witness for the C9 theorem: a remote sequence whose only match lies on
page 11 — beyond the bound — so the tool reports not found after examining
10 pages. -/
theorem c9_next_bug_bounded_witness :
    getNextBug "alice" 7 (fun p _ => if p ≤ 10 then [] else [JVal.num 9]) =
      (.notFound ("No active bugs assigned to " ++
        (if "alice" == "" then "me" else "alice") ++ " found under product " ++
        toString (7 : Int)), 10) :=
  (c9_next_bug_bounded "alice" 7 (fun p _ => if p ≤ 10 then [] else [JVal.num 9])).2.2
    (fun q _ hq => by simp [hq])

/-! C10: the activeOnly flag of getBugStats. -/

/-- C10: for every remote bugs payload the getBugStats operation returns the
same total and active counts whether its activeOnly flag is true or false:
the flag only toggles `allStatuses`, and with no status filter supplied the
status predicate accepts every bug either way, so the filtered set is
identical. -/
theorem c10_bug_stats_flag_inert (account : String) (payload : JVal) :
    getBugStats account true payload = getBugStats account false payload := by
  have hpred : ∀ b ∈ extractArray payload ["bugs"],
      bugMatches account none none (!true) b = bugMatches account none none (!false) b := by
    intro b _
    simp [bugMatches]
  unfold getBugStats fetchBugsFiltered
  rw [List.filter_congr hpred]

end Zentao
